import Mathlib

/-!
Verification of the alpaca_rest_api repository.

The repository has three Python files:
  cmds/alpaca_requests.py  (safe_get, download_intraday_dict, download_intraday)
  cmds/data_prep.py        (stack_data)
  scripts/download_data.py (the CLI driver)

This file gives a shallow embedding of those functions and proves properties
of the embedding.  Conventions used throughout:

* Machine timestamps: the cleaning code converts every UTC timestamp with
  pd.to_datetime(..., utc=True).dt.tz_convert(US/Eastern) and afterwards only
  uses the local calendar date, the local time of day, and equality and order
  of the converted values.  The conversion from instants to local timestamps
  is injective and order preserving, so the embedding takes the local
  representation as primitive: a timestamp is a calendar date (day index, an
  integer) plus a time of day in seconds since local midnight.

* Network traffic: a run of the program is modelled against a finite script
  of HTTP responses, one per GET request actually issued; a function that
  performs a request pops the next response from the script.

* Exceptions are modelled with Except; printing is not modelled.
-/

set_option maxHeartbeats 2000000

namespace AlpacaRest

/-- Local (US/Eastern) timestamp of a bar after timezone conversion: a
calendar date given as a day index and the time of day in seconds since
local midnight. -/
structure Timestamp where
  date : Int
  tod : Nat
deriving DecidableEq

/-- One raw bar record as it appears in the JSON payload, fields
t, o, h, l, c, v, n, vw.  The cleaning step renames them to
datetime, open, high, low, close, volume, count, vwap; the names do not
affect any property proved here, so the JSON names are kept. -/
structure Bar where
  t : Timestamp
  o : Int
  h : Int
  l : Int
  c : Int
  v : Int
  n : Int
  vw : Int
deriving DecidableEq

/-- Strict order on local timestamps: earlier date, or same date and earlier
time of day. -/
def tsLt (a b : Timestamp) : Prop :=
  a.date < b.date ∨ (a.date = b.date ∧ a.tod < b.tod)

/-- Non-strict order on local timestamps. -/
def tsLe (a b : Timestamp) : Prop :=
  a.date < b.date ∨ (a.date = b.date ∧ a.tod ≤ b.tod)

instance : DecidableRel tsLt := fun a b => by
  unfold tsLt
  exact inferInstance

instance : DecidableRel tsLe := fun a b => by
  unfold tsLe
  exact inferInstance

/-- Session-window predicate of the cleaning step, line 138 of
alpaca_requests.py:

  temp_df.between(time(9, 30), time(15, 55))

pandas Series.between is inclusive at both endpoints, so a local time of
day is kept when 09:30:00 <= tod <= 15:55:00, that is
34200 <= tod and tod <= 57300 in seconds since midnight. -/
def inSession (ts : Timestamp) : Bool :=
  decide (34200 ≤ ts.tod) && decide (ts.tod ≤ 57300)

/-- The session-window filter of line 138: keep exactly the rows whose local
time of day lies in the (closed) session window. -/
def sessionFilter (rows : List Bar) : List Bar :=
  rows.filter (fun b => inSession b.t)

/-- The rows of one calendar date, in their current order:
temp_df[temp_df.index.date == date] at line 153. -/
def dayRows (rows : List Bar) (d : Int) : List Bar :=
  rows.filter (fun b => b.t.date == d)

/-- The enumeration np.unique(temp_df.index.date) of line 147: the distinct
calendar dates present, in ascending order. -/
def uniqueDates (rows : List Bar) : List Int :=
  List.insertionSort (· ≤ ·) ((rows.map (fun b => b.t.date)).dedup)

/-- The per-date grouping loop of lines 147-163: for each distinct date in
ascending order, the group of that date is retained exactly when it holds at
least 78 rows; incomplete dates are dropped entirely. -/
def completeDayGroups (rows : List Bar) : List (List Bar) :=
  (uniqueDates rows).filterMap (fun d =>
    if 78 ≤ (dayRows rows d).length then some (dayRows rows d) else none)

/-- The errors the cleaning step can raise.  keyErrorDatetime is the
KeyError raised by the column access temp_df[col] at line 137 when the
raw series of a symbol is empty: pd.DataFrame([]) has no columns at all,
so the datetime column is missing.  emptyConcat is the ValueError that
pd.concat raises on an empty list of objects at line 168. -/
inductive CleanError where
  | keyErrorDatetime
  | emptyConcat
deriving DecidableEq

/-- pd.concat(temp_com_day_list, axis=0) at line 168: raises on an empty
list of groups, otherwise concatenates the groups in order. -/
def concatClean (gs : List (List Bar)) : Except CleanError (List Bar) :=
  if gs.isEmpty then Except.error CleanError.emptyConcat
  else Except.ok gs.flatten

/-- temp_df[~temp_df.index.duplicated(keep=first)] at line 175: keep of every
timestamp only its first occurrence.  The extra argument carries the set of
timestamps already seen. -/
def dedupKeepFirst : List Bar → List Timestamp → List Bar
  | [], _ => []
  | b :: rest, seen =>
    if b.t ∈ seen then dedupKeepFirst rest seen
    else b :: dedupKeepFirst rest (b.t :: seen)

/-- The per-symbol body of the loop of download_intraday, lines 132-179.
For an empty raw series, pd.DataFrame([]) at line 132 has no columns, so
the column access temp_df[col] at line 137 raises KeyError before the
session filter, the grouping or the concatenation ever run; every
nonempty raw series materializes all eight columns, so the column
accesses succeed.  On a nonempty series: session-window filtering,
grouping by calendar date with the completeness threshold, concatenation
of the retained groups, and duplicate removal.  Renaming, reindexing and
column reordering do not change the row lists and are not modelled; the
final summary print only reads the result. -/
def cleanSymbol (rows : List Bar) : Except CleanError (List Bar) :=
  if rows.isEmpty then Except.error CleanError.keyErrorDatetime
  else
    match concatClean (completeDayGroups (sessionFilter rows)) with
    | Except.error e => Except.error e
    | Except.ok allRows => Except.ok (dedupKeepFirst allRows [])

/-- The cleaning step download_intraday, lines 104-185, applied to the raw
per-symbol dictionary that its call to download_intraday_dict at line 131
returns (the fetch itself is modelled separately below): each symbol is
cleaned in dictionary order and the first exception aborts the whole call. -/
def download_intraday : List (String × List Bar) → Except CleanError (List (String × List Bar))
  | [] => Except.ok []
  | (s, rows) :: rest =>
    match cleanSymbol rows with
    | Except.error e => Except.error e
    | Except.ok cleaned =>
      match download_intraday rest with
      | Except.error e => Except.error e
      | Except.ok others => Except.ok ((s, cleaned) :: others)

/-- Specification-side decomposition of the cleaned output, used to compare
with cleanSymbol: for each distinct in-window date in ascending order whose
group reaches the completeness threshold, the group in raw order with later
duplicate timestamps removed. -/
def cleanedBlocks (rows : List Bar) : List (List Bar) :=
  (completeDayGroups (sessionFilter rows)).map (fun g => dedupKeepFirst g [])

/-! ### Basic facts about the timestamp order -/

theorem tsLt_of_tsLe_of_ne {a b : Timestamp} (hle : tsLe a b) (hne : a ≠ b) : tsLt a b := by
  rcases hle with hlt | ⟨hdeq, htle⟩
  · exact Or.inl hlt
  · refine Or.inr ⟨hdeq, lt_of_le_of_ne htle fun htod => hne ?_⟩
    cases a
    cases b
    simp_all

theorem tsLt_of_date_lt {a b : Timestamp} (hy : a.date < b.date) : tsLt a b := Or.inl hy

theorem ts_ne_of_date_lt {a b : Timestamp} (hy : a.date < b.date) : a ≠ b := by
  intro hcontra
  rw [hcontra] at hy
  exact lt_irrefl _ hy

/-! ### Properties of dedupKeepFirst -/

theorem dedupKeepFirst_congr : ∀ (rows : List Bar) (s₁ s₂ : List Timestamp),
    (∀ b ∈ rows, (b.t ∈ s₁ ↔ b.t ∈ s₂)) →
    dedupKeepFirst rows s₁ = dedupKeepFirst rows s₂
  | [], _, _, _ => rfl
  | b :: rest, s₁, s₂, hy => by
    have hb := hy b (List.mem_cons_self b rest)
    by_cases hmem : b.t ∈ s₁
    · rw [dedupKeepFirst, dedupKeepFirst, if_pos hmem, if_pos (hb.mp hmem)]
      exact dedupKeepFirst_congr rest s₁ s₂ fun b' hb' => hy b' (List.mem_cons_of_mem _ hb')
    · rw [dedupKeepFirst, dedupKeepFirst, if_neg hmem, if_neg fun hc => hmem (hb.mpr hc)]
      congr 1
      refine dedupKeepFirst_congr rest (b.t :: s₁) (b.t :: s₂) fun b' hb' => ?_
      simp only [List.mem_cons, hy b' (List.mem_cons_of_mem _ hb')]

theorem dedupKeepFirst_append (rows₁ rows₂ : List Bar) (seen : List Timestamp) :
    dedupKeepFirst (rows₁ ++ rows₂) seen =
      dedupKeepFirst rows₁ seen ++ dedupKeepFirst rows₂ (rows₁.map Bar.t ++ seen) := by
  induction rows₁ generalizing seen with
  | nil => simp [dedupKeepFirst]
  | cons b rest ih =>
    by_cases hmem : b.t ∈ seen
    · rw [List.cons_append, dedupKeepFirst, if_pos hmem, dedupKeepFirst, if_pos hmem, ih seen]
      congr 1
      refine dedupKeepFirst_congr _ _ _ fun b' _ => ?_
      simp only [List.map_cons, List.mem_append, List.cons_append, List.mem_cons]
      constructor
      · tauto
      · rintro (hc | hc | hc)
        · exact Or.inr (hc ▸ hmem)
        · tauto
        · tauto
    · rw [List.cons_append, dedupKeepFirst, if_neg hmem, dedupKeepFirst, if_neg hmem,
        ih (b.t :: seen), List.cons_append]
      congr 2
      refine dedupKeepFirst_congr _ _ _ fun b' _ => ?_
      simp only [List.map_cons, List.mem_append, List.cons_append, List.mem_cons]
      tauto

theorem dedupKeepFirst_sublist : ∀ (rows : List Bar) (seen : List Timestamp),
    List.Sublist (dedupKeepFirst rows seen) rows
  | [], _ => List.Sublist.refl []
  | b :: rest, seen => by
    by_cases hmem : b.t ∈ seen
    · rw [dedupKeepFirst, if_pos hmem]
      exact (dedupKeepFirst_sublist rest seen).cons b
    · rw [dedupKeepFirst, if_neg hmem]
      exact (dedupKeepFirst_sublist rest (b.t :: seen)).cons₂ b

theorem mem_of_mem_dedupKeepFirst {b : Bar} {rows : List Bar} {seen : List Timestamp}
    (hy : b ∈ dedupKeepFirst rows seen) : b ∈ rows :=
  (dedupKeepFirst_sublist rows seen).mem hy

theorem dedupKeepFirst_not_seen : ∀ (rows : List Bar) (seen : List Timestamp),
    (∀ b ∈ rows, b.t ∉ seen) → dedupKeepFirst rows seen = dedupKeepFirst rows [] :=
  fun rows seen hy =>
    dedupKeepFirst_congr rows seen [] fun b hb => by
      simp only [List.not_mem_nil, iff_false]
      exact hy b hb

theorem dedupKeepFirst_times_nodup : ∀ (rows : List Bar) (seen : List Timestamp),
    ((dedupKeepFirst rows seen).map Bar.t).Nodup ∧
      ∀ ts ∈ (dedupKeepFirst rows seen).map Bar.t, ts ∉ seen
  | [], _ => by simp [dedupKeepFirst]
  | b :: rest, seen => by
    by_cases hmem : b.t ∈ seen
    · rw [dedupKeepFirst, if_pos hmem]
      exact dedupKeepFirst_times_nodup rest seen
    · rw [dedupKeepFirst, if_neg hmem]
      obtain ⟨hnodup, hseen⟩ := dedupKeepFirst_times_nodup rest (b.t :: seen)
      refine ⟨List.Pairwise.cons ?_ hnodup, ?_⟩
      · intro ts hts hcontra
        exact hseen ts hts (hcontra ▸ List.mem_cons_self _ _)
      · intro ts hts
        rcases List.mem_cons.mp hts with hts | hts
        · exact hts ▸ hmem
        · exact fun hc => hseen ts hts (List.mem_cons_of_mem _ hc)

theorem dedupKeepFirst_ne_nil {rows : List Bar} (hy : rows ≠ []) :
    dedupKeepFirst rows [] ≠ [] := by
  cases rows with
  | nil => exact absurd rfl hy
  | cons b rest =>
    rw [dedupKeepFirst, if_neg (List.not_mem_nil b.t)]
    exact List.cons_ne_nil _ _

theorem dedupKeepFirst_flatten : ∀ (gs : List (List Bar)),
    gs.Pairwise (fun g₁ g₂ => ∀ b₁ ∈ g₁, ∀ b₂ ∈ g₂, b₁.t ≠ b₂.t) →
    dedupKeepFirst gs.flatten [] = (gs.map (fun g => dedupKeepFirst g [])).flatten
  | [], _ => rfl
  | g :: gs, hpw => by
    obtain ⟨hhead, htail⟩ := List.pairwise_cons.mp hpw
    rw [List.flatten_cons, dedupKeepFirst_append, List.map_cons, List.flatten_cons]
    congr 1
    rw [List.append_nil, dedupKeepFirst_not_seen _ _ ?_, dedupKeepFirst_flatten gs htail]
    intro b hb hcontra
    obtain ⟨g', hg', hbg'⟩ := List.mem_flatten.mp hb
    obtain ⟨b₁, hb₁, hb₁t⟩ := List.mem_map.mp hcontra
    exact hhead g' hg' b₁ hb₁ b hbg' hb₁t

/-! ### Membership in the filters and the date enumeration -/

theorem mem_sessionFilter {b : Bar} {rows : List Bar} :
    b ∈ sessionFilter rows ↔ b ∈ rows ∧ inSession b.t = true := by
  simp [sessionFilter]

theorem mem_dayRows {b : Bar} {rows : List Bar} {d : Int} :
    b ∈ dayRows rows d ↔ b ∈ rows ∧ b.t.date = d := by
  simp [dayRows]

theorem date_eq_of_mem_dayRows {b : Bar} {rows : List Bar} {d : Int}
    (hy : b ∈ dayRows rows d) : b.t.date = d :=
  (mem_dayRows.mp hy).2

theorem uniqueDates_nodup (rows : List Bar) : (uniqueDates rows).Nodup :=
  (List.perm_insertionSort _ _).nodup_iff.mpr (List.nodup_dedup _)

theorem uniqueDates_sorted (rows : List Bar) : (uniqueDates rows).Pairwise (· < ·) :=
  List.Sorted.lt_of_le (List.sorted_insertionSort _ _) (uniqueDates_nodup rows)

theorem mem_uniqueDates {rows : List Bar} {d : Int} :
    d ∈ uniqueDates rows ↔ ∃ b ∈ rows, b.t.date = d := by
  unfold uniqueDates
  rw [(List.perm_insertionSort _ _).mem_iff, List.mem_dedup, List.mem_map]

/-! ### The complete-day groups and the cleaned blocks -/

theorem mem_completeDayGroups {rows : List Bar} {g : List Bar} :
    g ∈ completeDayGroups rows ↔
      ∃ d, d ∈ uniqueDates rows ∧ 78 ≤ (dayRows rows d).length ∧ g = dayRows rows d := by
  simp only [completeDayGroups, List.mem_filterMap]
  constructor
  · rintro ⟨d, hd, hsome⟩
    by_cases hlen : 78 ≤ (dayRows rows d).length
    · rw [if_pos hlen] at hsome
      exact ⟨d, hd, hlen, (Option.some_inj.mp hsome).symm⟩
    · rw [if_neg hlen] at hsome
      exact absurd hsome (Option.noConfusion)
  · rintro ⟨d, hd, hlen, hg⟩
    exact ⟨d, hd, by rw [if_pos hlen, hg]⟩

theorem pairwise_filterMap_lift {α β : Type} (f : α → Option β) {R : α → α → Prop}
    {S : β → β → Prop}
    (hlift : ∀ a₁ a₂ b₁ b₂, R a₁ a₂ → f a₁ = some b₁ → f a₂ = some b₂ → S b₁ b₂) :
    ∀ {l : List α}, l.Pairwise R → (l.filterMap f).Pairwise S
  | [], _ => List.Pairwise.nil
  | a :: l, hpw => by
    obtain ⟨hhead, htail⟩ := List.pairwise_cons.mp hpw
    cases hfa : f a with
    | none =>
      rw [List.filterMap_cons_none hfa]
      exact pairwise_filterMap_lift f hlift htail
    | some b =>
      rw [List.filterMap_cons_some hfa]
      refine List.Pairwise.cons ?_ (pairwise_filterMap_lift f hlift htail)
      intro y hy
      obtain ⟨a', ha', hfa'⟩ := List.mem_filterMap.mp hy
      exact hlift a a' b y (hhead a' ha') hfa hfa'

theorem completeDayGroups_pairwise (rows : List Bar) :
    (completeDayGroups rows).Pairwise
      (fun g₁ g₂ => ∀ b₁ ∈ g₁, ∀ b₂ ∈ g₂, b₁.t.date < b₂.t.date) := by
  refine pairwise_filterMap_lift _ ?_ (uniqueDates_sorted rows)
  intro d₁ d₂ g₁ g₂ hlt h₁ h₂ b₁ hb₁ b₂ hb₂
  by_cases hl₁ : 78 ≤ (dayRows rows d₁).length
  · by_cases hl₂ : 78 ≤ (dayRows rows d₂).length
    · rw [if_pos hl₁] at h₁
      rw [if_pos hl₂] at h₂
      rw [date_eq_of_mem_dayRows ((Option.some_inj.mp h₁) ▸ hb₁),
        date_eq_of_mem_dayRows ((Option.some_inj.mp h₂) ▸ hb₂)]
      exact hlt
    · rw [if_neg hl₂] at h₂
      exact absurd h₂ Option.noConfusion
  · rw [if_neg hl₁] at h₁
    exact absurd h₁ Option.noConfusion

theorem mem_cleanedBlocks {rows : List Bar} {blk : List Bar} :
    blk ∈ cleanedBlocks rows ↔
      ∃ d, d ∈ uniqueDates (sessionFilter rows) ∧
        78 ≤ (dayRows (sessionFilter rows) d).length ∧
        blk = dedupKeepFirst (dayRows (sessionFilter rows) d) [] := by
  simp only [cleanedBlocks, List.mem_map, mem_completeDayGroups]
  constructor
  · rintro ⟨g, ⟨d, hd, hlen, hg⟩, hblk⟩
    exact ⟨d, hd, hlen, by rw [← hblk, hg]⟩
  · rintro ⟨d, hd, hlen, hblk⟩
    exact ⟨dayRows (sessionFilter rows) d, ⟨d, hd, hlen, rfl⟩, hblk.symm⟩

theorem pairwise_flatten_bars {R : Timestamp → Timestamp → Prop} :
    ∀ (gs : List (List Bar)), (∀ g ∈ gs, (g.map Bar.t).Pairwise R) →
      gs.Pairwise (fun g₁ g₂ => ∀ b₁ ∈ g₁, ∀ b₂ ∈ g₂, R b₁.t b₂.t) →
      ((gs.flatten).map Bar.t).Pairwise R
  | [], _, _ => List.Pairwise.nil
  | g :: gs, hall, hpw => by
    obtain ⟨hhead, htail⟩ := List.pairwise_cons.mp hpw
    rw [List.flatten_cons, List.map_append]
    rw [List.pairwise_append]
    refine ⟨hall g (List.mem_cons_self _ _),
      pairwise_flatten_bars gs (fun g' hg' => hall g' (List.mem_cons_of_mem _ hg')) htail, ?_⟩
    intro x hx y hy
    obtain ⟨b₁, hb₁, hb₁t⟩ := List.mem_map.mp hx
    obtain ⟨b₂, hb₂, hb₂t⟩ := List.mem_map.mp hy
    obtain ⟨g'', hg'', hb₂g''⟩ := List.mem_flatten.mp hb₂
    subst hb₁t hb₂t
    exact hhead g'' hg'' b₁ hb₁ b₂ hb₂g''

/-! ### Characterizations of cleanSymbol and download_intraday -/

theorem cleanSymbol_ok_iff {rows : List Bar} {out : List Bar} :
    cleanSymbol rows = Except.ok out ↔
      completeDayGroups (sessionFilter rows) ≠ [] ∧
        out = dedupKeepFirst (completeDayGroups (sessionFilter rows)).flatten [] := by
  unfold cleanSymbol concatClean
  by_cases hrows : rows.isEmpty
  · rw [if_pos hrows]
    have hnil : rows = [] := List.isEmpty_iff.mp hrows
    subst hnil
    constructor
    · intro hc
      exact absurd hc Except.noConfusion
    · intro hc
      exact absurd (by decide : completeDayGroups (sessionFilter ([] : List Bar)) = []) hc.1
  · rw [if_neg hrows]
    by_cases hg : (completeDayGroups (sessionFilter rows)).isEmpty
    · rw [if_pos hg]
      simp [List.isEmpty_iff.mp hg]
    · rw [if_neg hg]
      simp only [Except.ok.injEq]
      constructor
      · intro hy
        exact ⟨fun hc => hg (List.isEmpty_iff.mpr hc), hy.symm⟩
      · intro hy
        exact hy.2.symm

theorem cleanSymbol_blocks {rows : List Bar} {out : List Bar}
    (hy : cleanSymbol rows = Except.ok out) : out = (cleanedBlocks rows).flatten := by
  rw [(cleanSymbol_ok_iff.mp hy).2, cleanedBlocks]
  refine dedupKeepFirst_flatten _ ?_
  refine (completeDayGroups_pairwise (sessionFilter rows)).imp ?_
  intro g₁ g₂ hdates b₁ hb₁ b₂ hb₂
  exact ts_ne_of_date_lt (hdates b₁ hb₁ b₂ hb₂)

theorem download_intraday_mem {raw res : List (String × List Bar)}
    (hy : download_intraday raw = Except.ok res) :
    ∀ p ∈ res, ∃ q ∈ raw, p.1 = q.1 ∧ cleanSymbol q.2 = Except.ok p.2 := by
  induction raw generalizing res with
  | nil =>
    intro p hp
    rw [download_intraday] at hy
    cases Except.ok.inj hy
    exact absurd hp (List.not_mem_nil p)
  | cons q raw ih =>
    intro p hp
    obtain ⟨s, rows⟩ := q
    rw [download_intraday] at hy
    cases hcs : cleanSymbol rows with
    | error e => rw [hcs] at hy; exact absurd hy Except.noConfusion
    | ok cleaned =>
      rw [hcs] at hy
      cases hrest : download_intraday raw with
      | error e => rw [hrest] at hy; exact absurd hy Except.noConfusion
      | ok others =>
        rw [hrest] at hy
        cases Except.ok.inj hy
        rcases List.mem_cons.mp hp with hp | hp
        · exact ⟨(s, rows), List.mem_cons_self _ _, by rw [hp], by rw [hp]; exact hcs⟩
        · obtain ⟨q', hq', hfst, hclean⟩ := ih hrest p hp
          exact ⟨q', List.mem_cons_of_mem _ hq', hfst, hclean⟩

/-! ### The fetcher: safe_get and download_intraday_dict

A run of the fetcher is modelled against a finite script of HTTP responses;
each GET request pops the next response from the script. -/

/-- Python-level failures that the fetch path can raise. -/
inductive PyError where
  | attributeError
  | outOfScript
deriving DecidableEq

/-- The attributes of the class datetime.time.  The module header of
alpaca_requests.py imports datetime as dt and, from the datetime module,
the name time; so inside safe_get the name time denotes datetime.time, whose
attributes are exactly the class attributes min, max, resolution, the
instance fields and the methods listed here.  In particular it has no
attribute named time and none named sleep: those live on the time module,
which this file never imports. -/
def datetimeTimeAttrs : List String :=
  ["min", "max", "resolution", "hour", "minute", "second", "microsecond",
   "tzinfo", "fold", "replace", "isoformat", "strftime", "utcoffset",
   "dst", "tzname", "fromisoformat"]

/-- Attribute lookup on the class datetime.time. -/
def datetimeTimeHasAttr (attr : String) : Bool :=
  datetimeTimeAttrs.contains attr

/-- One HTTP response of the vendor API as consumed by the program: the
status code, the optional X-RateLimit-Reset header, the per-symbol bar
lists of the JSON body in their dictionary order, and the optional
next_page_token field of the body. -/
structure ApiResponse where
  status : Nat
  rateLimitReset : Option Int
  bars : List (String × List Bar)
  next_page_token : Option String
deriving DecidableEq

/-- safe_get, lines 7-32 of alpaca_requests.py, run against a response
script: issue the request (pop one response); on status 429 evaluate

  int(response.headers.get(s, time.time() + 60))

whose default argument time.time() is evaluated before the lookup, then
sleep via time.sleep and retry; on any other status return the response
(together with the rest of the script, for the callers that keep
requesting).  Both time.time and time.sleep are attribute accesses on the
class datetime.time, so each is guarded by the attribute lookup; a failed
lookup raises AttributeError.  Sleeping does not change the response
script. -/
def safe_get : List ApiResponse → Except PyError (ApiResponse × List ApiResponse)
  | [] => Except.error PyError.outOfScript
  | r :: rest =>
    if r.status == 429 then
      if datetimeTimeHasAttr "time" then
        if datetimeTimeHasAttr "sleep" then safe_get rest
        else Except.error PyError.attributeError
      else Except.error PyError.attributeError
    else Except.ok (r, rest)

/-- symbol_bars.setdefault(symbol, []).extend(barlist) at line 91: append
the bars to the entry of the symbol, keeping dictionary insertion order,
creating the entry at the end if absent. -/
def mergeSymbol : List (String × List Bar) → String → List Bar → List (String × List Bar)
  | [], s, bs => [(s, bs)]
  | (s', bs') :: rest, s, bs =>
    if s' == s then (s', bs' ++ bs) :: rest
    else (s', bs') :: mergeSymbol rest s bs

/-- The merge loop over data.get(bars, {}).items() at lines 90-96. -/
def mergePage (acc : List (String × List Bar)) (pageBars : List (String × List Bar)) :
    List (String × List Bar) :=
  pageBars.foldl (fun a p => mergeSymbol a p.1 p.2) acc

/-- Merging a sequence of pages in order. -/
def mergePages (acc : List (String × List Bar)) (pages : List ApiResponse) :
    List (String × List Bar) :=
  pages.foldl (fun a r => mergePage a r.bars) acc

/-- Truthiness of next_token in the Python line

  if not next_token: break

None and the empty string are falsy, any other string is truthy. -/
def tokenPresent : Option String → Bool
  | none => false
  | some s => !(s == "")

theorem safe_get_rest_length : ∀ {script rest : List ApiResponse} {r : ApiResponse},
    safe_get script = Except.ok (r, rest) → rest.length < script.length
  | [], _, _, hy => absurd hy Except.noConfusion
  | q :: script, rest, r, hy => by
    rw [safe_get] at hy
    by_cases h429 : q.status == 429
    · rw [if_pos h429] at hy
      have : datetimeTimeHasAttr "time" = false := by decide
      rw [this] at hy
      exact absurd hy (by simp)
    · rw [if_neg h429] at hy
      cases Except.ok.inj hy
      exact Nat.lt_succ_self _

/-- The pagination loop of download_intraday_dict, lines 70-99: request a
page through safe_get, merge its bars, count the request, and continue
while the body carries a truthy next_page_token.  The request counter
counts the completed requests. -/
def fetchLoop (script : List ApiResponse) (acc : List (String × List Bar)) (reqs : Nat) :
    Nat × Except PyError (List (String × List Bar)) :=
  match hy : safe_get script with
  | Except.error e => (reqs, Except.error e)
  | Except.ok (r, rest) =>
    if tokenPresent r.next_page_token then
      fetchLoop rest (mergePage acc r.bars) (reqs + 1)
    else
      (reqs + 1, Except.ok (mergePage acc r.bars))
termination_by script.length
decreasing_by exact safe_get_rest_length hy

/-- The failures of download_intraday_dict: the explicit ValueError on an
oversized page limit at line 56, or a failure bubbling up from the fetch
path. -/
inductive FetchError where
  | invalidArgument
  | pyError (e : PyError)
deriving DecidableEq

/-- Tagging the fetch-loop outcome with the FetchError type. -/
def wrapFetch : Nat × Except PyError (List (String × List Bar)) →
    Nat × Except FetchError (List (String × List Bar))
  | (reqs, Except.ok result) => (reqs, Except.ok result)
  | (reqs, Except.error e) => (reqs, Except.error (FetchError.pyError e))

/-- download_intraday_dict, lines 34-101, run against a response script:
raise ValueError when the limit exceeds 10000 before any request, else run
the pagination loop.  The first component counts the requests issued.  The
symbols, timeframe, date range and credentials only shape the outgoing
query parameters and do not influence the control flow, so they are not
modelled. -/
def download_intraday_dict (limit : Int) (script : List ApiResponse) :
    Nat × Except FetchError (List (String × List Bar)) :=
  if 10000 < limit then (0, Except.error FetchError.invalidArgument)
  else wrapFetch (fetchLoop script [] 0)

/-! ### The driver and the aggregator -/

/-- Observable outcome of the argument handling of scripts/download_data.py:
either the usage string is printed and the process exits with the given
status code (lines 9-15), or the driver proceeds to download, with the flag
recording whether the optional stacking block of lines 37-43 runs. -/
inductive DriverOutcome where
  | usageExit (code : Nat)
  | run (stack : Bool)
deriving DecidableEq

/-- The argument handling of scripts/download_data.py: an argument count
outside 8..9 prints usage and exits 1; then a help flag in sys.argv[1]
prints usage and exits 0; otherwise the driver runs, and the stacked frame
is produced exactly when len(sys.argv) == 9 and sys.argv[6] == the literal
string stack (line 38 of the source compares sys.argv[6], which by the
unpacking at line 18 is the API key, not the ninth argument). -/
def driverMain (argv : List String) : DriverOutcome :=
  if argv.length < 8 ∨ 9 < argv.length then DriverOutcome.usageExit 1
  else if argv.getD 1 "" = "-h" ∨ argv.getD 1 "" = "--help" then DriverOutcome.usageExit 0
  else DriverOutcome.run ((argv.length == 9) && (argv.getD 6 "" == "stack"))

/-- stack_data of cmds/data_prep.py: pd.concat over the per-symbol tables
in dictionary order, no re-sorting and no re-indexing. -/
def stack_data (df_dict : List (String × List Bar)) : List Bar :=
  (df_dict.map Prod.snd).flatten

/-! ### Concrete inputs used by counterexamples and witnesses -/

/-- A bar with the given local date and time of day; the price and volume
fields are irrelevant to every property below. -/
def mkBar (d : Int) (s : Nat) : Bar := ⟨⟨d, s⟩, 0, 0, 0, 0, 0, 0, 0⟩

/-- One full session of 78 five-minute bars, 09:30:00 to 15:55:00 local
time, in ascending order. -/
def fullDay : List Bar := (List.range 78).map (fun i => mkBar 0 (34200 + 300 * i))

/-- A raw day of 78 in-window rows whose first two timestamps are out of
order and whose second timestamp occurs twice: 09:35, 09:30, 09:30, then
09:40 .. 15:55 in order.  It passes the completeness check with 78 rows but
only 77 distinct timestamps. -/
def messyDay : List Bar :=
  mkBar 0 34500 :: mkBar 0 34200 :: mkBar 0 34200 ::
    (List.range 75).map (fun i => mkBar 0 (34800 + 300 * i))

/-- The cleaned output of messyDay: the duplicate is removed, the inversion
of the first two rows is kept. -/
def messyDayOut : List Bar :=
  mkBar 0 34500 :: mkBar 0 34200 ::
    (List.range 75).map (fun i => mkBar 0 (34800 + 300 * i))

deriving instance DecidableEq for Except

/-! ### Derived facts about the cleaned blocks -/

theorem cleanedBlocks_pairwise (rows : List Bar) :
    (cleanedBlocks rows).Pairwise
      (fun g₁ g₂ => ∀ b₁ ∈ g₁, ∀ b₂ ∈ g₂, b₁.t.date < b₂.t.date) := by
  rw [cleanedBlocks, List.pairwise_map]
  refine (completeDayGroups_pairwise (sessionFilter rows)).imp ?_
  intro g₁ g₂ hdates b₁ hb₁ b₂ hb₂
  exact hdates b₁ (mem_of_mem_dedupKeepFirst hb₁) b₂ (mem_of_mem_dedupKeepFirst hb₂)

theorem cleanedBlocks_block_nodup {rows blk : List Bar} (hblk : blk ∈ cleanedBlocks rows) :
    (blk.map Bar.t).Nodup := by
  obtain ⟨d, _, _, hdef⟩ := mem_cleanedBlocks.mp hblk
  rw [hdef]
  exact (dedupKeepFirst_times_nodup _ _).1

theorem cleanedBlocks_block_date {rows blk : List Bar} (hblk : blk ∈ cleanedBlocks rows) :
    ∃ d, 78 ≤ (dayRows (sessionFilter rows) d).length ∧ ∀ b ∈ blk, b.t.date = d := by
  obtain ⟨d, _, hlen, hdef⟩ := mem_cleanedBlocks.mp hblk
  refine ⟨d, hlen, fun b hb => ?_⟩
  exact date_eq_of_mem_dayRows (mem_of_mem_dedupKeepFirst (hdef ▸ hb))

theorem cleanSymbol_nodup {rows out : List Bar} (hy : cleanSymbol rows = Except.ok out) :
    (out.map Bar.t).Nodup := by
  rw [cleanSymbol_blocks hy]
  refine pairwise_flatten_bars _ (fun g hg => cleanedBlocks_block_nodup hg) ?_
  refine (cleanedBlocks_pairwise rows).imp ?_
  intro g₁ g₂ hd b₁ hb₁ b₂ hb₂
  exact ts_ne_of_date_lt (hd b₁ hb₁ b₂ hb₂)

theorem cleanSymbol_inSession {rows out : List Bar} (hy : cleanSymbol rows = Except.ok out) :
    ∀ b ∈ out, inSession b.t = true := by
  intro b hb
  rw [cleanSymbol_blocks hy] at hb
  obtain ⟨blk, hblk, hbblk⟩ := List.mem_flatten.mp hb
  obtain ⟨d, _, _, hdef⟩ := mem_cleanedBlocks.mp hblk
  have hmem : b ∈ dayRows (sessionFilter rows) d :=
    mem_of_mem_dedupKeepFirst (hdef ▸ hbblk)
  exact (mem_sessionFilter.mp (mem_dayRows.mp hmem).1).2

theorem cleanSymbol_date_complete {rows out : List Bar}
    (hy : cleanSymbol rows = Except.ok out) {b : Bar} (hb : b ∈ out) :
    78 ≤ (dayRows (sessionFilter rows) b.t.date).length := by
  rw [cleanSymbol_blocks hy] at hb
  obtain ⟨blk, hblk, hbblk⟩ := List.mem_flatten.mp hb
  obtain ⟨d, _, hlen, hdef⟩ := mem_cleanedBlocks.mp hblk
  have hmem : b ∈ dayRows (sessionFilter rows) d :=
    mem_of_mem_dedupKeepFirst (hdef ▸ hbblk)
  rw [date_eq_of_mem_dayRows hmem]
  exact hlen

theorem cleanSymbol_sorted {rows out : List Bar} (hy : cleanSymbol rows = Except.ok out)
    (hday : ∀ d : Int, ((dayRows (sessionFilter rows) d).map Bar.t).Pairwise tsLe) :
    (out.map Bar.t).Pairwise tsLt := by
  rw [cleanSymbol_blocks hy]
  refine pairwise_flatten_bars _ ?_ ?_
  · intro g hg
    obtain ⟨d, _, _, hdef⟩ := mem_cleanedBlocks.mp hg
    subst hdef
    have hle : ((dedupKeepFirst (dayRows (sessionFilter rows) d) []).map Bar.t).Pairwise tsLe :=
      (hday d).sublist ((dedupKeepFirst_sublist _ _).map Bar.t)
    have hnd : ((dedupKeepFirst (dayRows (sessionFilter rows) d) []).map Bar.t).Pairwise
        (fun a b => a ≠ b) :=
      (dedupKeepFirst_times_nodup (dayRows (sessionFilter rows) d) []).1
    exact (hle.and hnd).imp fun hpair => tsLt_of_tsLe_of_ne hpair.1 hpair.2
  · refine (cleanedBlocks_pairwise rows).imp ?_
    intro g₁ g₂ hd b₁ hb₁ b₂ hb₂
    exact tsLt_of_date_lt (hd b₁ hb₁ b₂ hb₂)

theorem cleanSymbol_dates_mono {rows out : List Bar}
    (hy : cleanSymbol rows = Except.ok out) :
    (out.map (fun b => b.t.date)).Pairwise (· ≤ ·) := by
  have hmap : out.map (fun b => b.t.date) = (out.map Bar.t).map Timestamp.date := by
    rw [List.map_map]
    rfl
  rw [hmap, List.pairwise_map]
  rw [cleanSymbol_blocks hy]
  refine pairwise_flatten_bars _ ?_ ?_
  · intro g hg
    obtain ⟨d, _, hdate⟩ := cleanedBlocks_block_date hg
    rw [List.pairwise_map]
    refine List.pairwise_of_forall_mem_list ?_
    intro a ha b hb
    rw [hdate a ha, hdate b hb]
  · refine (cleanedBlocks_pairwise rows).imp ?_
    intro g₁ g₂ hd b₁ hb₁ b₂ hb₂
    exact le_of_lt (hd b₁ hb₁ b₂ hb₂)

theorem filter_date_flatten : ∀ (gs : List (List Bar)) (d : Int) (target : List Bar),
    gs.Pairwise (fun g₁ g₂ => ∀ b₁ ∈ g₁, ∀ b₂ ∈ g₂, b₁.t.date < b₂.t.date) →
    (∀ g ∈ gs, List.Sublist (g.filter (fun b => b.t.date == d)) target) →
    List.Sublist ((gs.flatten).filter (fun b => b.t.date == d)) target
  | [], _, _, _, _ => by simp
  | g :: gs, d, target, hpw, hsub => by
    obtain ⟨hhead, htail⟩ := List.pairwise_cons.mp hpw
    rw [List.flatten_cons, List.filter_append]
    by_cases hg : g.filter (fun b => b.t.date == d) = []
    · rw [hg, List.nil_append]
      exact filter_date_flatten gs d target htail
        (fun g' hg' => hsub g' (List.mem_cons_of_mem _ hg'))
    · obtain ⟨b, hbmem⟩ := List.exists_mem_of_length_pos (List.length_pos.mpr hg)
      obtain ⟨hbg, hbd⟩ := List.mem_filter.mp hbmem
      have hrest : (gs.flatten).filter (fun b => b.t.date == d) = [] := by
        rw [List.filter_eq_nil_iff]
        intro b' hb'
        obtain ⟨g', hg', hb'g'⟩ := List.mem_flatten.mp hb'
        have hlt := hhead g' hg' b hbg b' hb'g'
        rw [beq_iff_eq] at hbd ⊢
        rw [hbd] at hlt
        exact fun hc => absurd (hc ▸ hlt) (lt_irrefl d)
      rw [hrest, List.append_nil]
      exact hsub g (List.mem_cons_self _ _)

theorem cleanSymbol_day_order {rows out : List Bar}
    (hy : cleanSymbol rows = Except.ok out) (d : Int) :
    List.Sublist (out.filter (fun b => b.t.date == d))
      (rows.filter (fun b => b.t.date == d)) := by
  rw [cleanSymbol_blocks hy]
  refine filter_date_flatten _ d _ (cleanedBlocks_pairwise rows) ?_
  intro g hg
  obtain ⟨dg, hdg, hlen, hdef⟩ := mem_cleanedBlocks.mp hg
  by_cases hdd : dg = d
  · subst hdd
    have h₁ : List.Sublist (g.filter (fun b => b.t.date == dg)) g := List.filter_sublist g
    have h₂ : List.Sublist g (dayRows (sessionFilter rows) dg) :=
      hdef ▸ dedupKeepFirst_sublist _ _
    have h₃ : List.Sublist (dayRows (sessionFilter rows) dg)
        (rows.filter (fun b => b.t.date == dg)) := by
      unfold dayRows sessionFilter
      exact (List.filter_sublist rows).filter _
    exact (h₁.trans h₂).trans h₃
  · have : g.filter (fun b => b.t.date == d) = [] := by
      rw [List.filter_eq_nil_iff]
      intro b hb
      have hbd : b.t.date = dg :=
        date_eq_of_mem_dayRows (mem_of_mem_dedupKeepFirst (hdef ▸ hb))
      rw [beq_iff_eq, hbd]
      exact hdd
    rw [this]
    exact List.nil_sublist _

/-! ### Derived facts about the fetch loop -/

theorem safe_get_not429 {r : ApiResponse} {rest : List ApiResponse} (hy : r.status ≠ 429) :
    safe_get (r :: rest) = Except.ok (r, rest) := by
  rw [safe_get, if_neg (by simpa using hy)]

theorem fetchLoop_not429 {r : ApiResponse} {rest : List ApiResponse}
    (acc : List (String × List Bar)) (reqs : Nat) (hy : r.status ≠ 429) :
    fetchLoop (r :: rest) acc reqs =
      if tokenPresent r.next_page_token then
        fetchLoop rest (mergePage acc r.bars) (reqs + 1)
      else (reqs + 1, Except.ok (mergePage acc r.bars)) := by
  rw [fetchLoop]
  split
  · next e heq =>
    rw [safe_get_not429 hy] at heq
    exact absurd heq Except.noConfusion
  · next r' rest' heq =>
    rw [safe_get_not429 hy] at heq
    cases Except.ok.inj heq
    rfl

theorem fetchLoop_pages : ∀ (pre : List ApiResponse) (p : ApiResponse)
    (rest : List ApiResponse) (acc : List (String × List Bar)) (reqs : Nat),
    (∀ q ∈ pre, q.status ≠ 429 ∧ tokenPresent q.next_page_token = true) →
    p.status ≠ 429 → tokenPresent p.next_page_token = false →
    fetchLoop (pre ++ p :: rest) acc reqs =
      (reqs + (pre.length + 1), Except.ok (mergePages acc (pre ++ [p])))
  | [], p, rest, acc, reqs, _, hp429, hptok => by
    rw [List.nil_append, fetchLoop_not429 acc reqs hp429, if_neg (by simp [hptok])]
    simp [mergePages, mergePage]
  | q :: pre, p, rest, acc, reqs, hpre, hp429, hptok => by
    have hq := hpre q (List.mem_cons_self _ _)
    rw [List.cons_append, fetchLoop_not429 acc reqs hq.1, if_pos hq.2,
      fetchLoop_pages pre p rest (mergePage acc q.bars) (reqs + 1)
        (fun q' hq' => hpre q' (List.mem_cons_of_mem _ hq')) hp429 hptok]
    simp only [Prod.mk.injEq]
    exact ⟨by simp only [List.length_cons]; omega, rfl⟩

theorem download_intraday_not_ok {rows : List Bar}
    (hfail : cleanSymbol rows = Except.error CleanError.emptyConcat) :
    ∀ (pre post : List (String × List Bar)) (s : String)
      (res : List (String × List Bar)),
      download_intraday (pre ++ (s, rows) :: post) ≠ Except.ok res := by
  intro pre
  induction pre with
  | nil =>
    intro post s res hcontra
    rw [List.nil_append, download_intraday, hfail] at hcontra
    exact absurd hcontra Except.noConfusion
  | cons q pre ih =>
    intro post s res hcontra
    obtain ⟨s₀, rows₀⟩ := q
    rw [List.cons_append, download_intraday] at hcontra
    cases hcs : cleanSymbol rows₀ with
    | error e =>
      rw [hcs] at hcontra
      exact absurd hcontra Except.noConfusion
    | ok cleaned =>
      rw [hcs] at hcontra
      cases hrest : download_intraday (pre ++ (s, rows) :: post) with
      | error e =>
        rw [hrest] at hcontra
        exact absurd hcontra Except.noConfusion
      | ok others =>
        exact ih post s others hrest

/-! ### Claim C1 -/

/-- C1: refuted as stated; the code contradicts the docstring of safe_get.
On a 429 response the line

  reset_ts = int(response.headers.get(s, time.time() + 60))

evaluates its default argument time.time() before the header lookup, and
time names the class datetime.time (bound by the module header of the
source file), which has no attribute time and no attribute
sleep.  So the first 429 raises AttributeError whether or not the
X-RateLimit-Reset header is present: safe_get never sleeps, never retries,
and surfaces the throttled request as a failure instead of returning the
following 200 response. -/
theorem c1_safe_get_crashes_on_429 :
    safe_get [⟨429, some 1700000060, [], none⟩,
        ⟨200, none, [("AAPL", [mkBar 0 34200])], none⟩]
      = Except.error PyError.attributeError ∧
    safe_get [⟨429, none, [], none⟩, ⟨200, none, [("AAPL", [mkBar 0 34200])], none⟩]
      = Except.error PyError.attributeError ∧
    datetimeTimeHasAttr "time" = false ∧
    datetimeTimeHasAttr "sleep" = false :=
  ⟨by decide, by decide, by decide, by decide⟩

/-! ### Claim C2 -/

/-- C2 counterexample: the claim says the local clock time of every output
row is strictly before 15:55.  On one full ascending session the cleaning
step returns a table containing the 15:55:00 bar (tod = 57300 seconds),
because pandas Series.between is inclusive at both endpoints; indeed the
15:55 bar is needed to reach the 78-bar completeness count. -/
theorem c2_boundary_bar_retained :
    download_intraday [("AAPL", fullDay)] = Except.ok [("AAPL", fullDay)] ∧
    mkBar 0 57300 ∈ fullDay ∧
    ¬ (mkBar 0 57300).t.tod < 57300 :=
  ⟨by decide, by decide, by decide⟩

/-- C2 (amended): for every row of every per-symbol table returned by the
cleaning step, the local clock time lies in the closed interval
09:30:00 to 15:55:00 inclusive (34200 to 57300 seconds since midnight);
every raw bar whose local time falls outside that closed interval is
excluded. -/
theorem c2_session_window_closed :
    ∀ (raw res : List (String × List Bar)), download_intraday raw = Except.ok res →
      ∀ p ∈ res, ∀ b ∈ p.2, 34200 ≤ b.t.tod ∧ b.t.tod ≤ 57300 := by
  intro raw res hok p hp b hb
  obtain ⟨q, hq, hfst, hclean⟩ := download_intraday_mem hok p hp
  have hsess := cleanSymbol_inSession hclean b hb
  unfold inSession at hsess
  simp only [Bool.and_eq_true, decide_eq_true_eq] at hsess
  exact hsess

/-- Witness for c2_session_window_closed at a concrete input. -/
theorem c2_session_window_closed_witness :
    download_intraday [("AAPL", fullDay)] = Except.ok [("AAPL", fullDay)] ∧
    (34200 ≤ (mkBar 0 57300).t.tod ∧ (mkBar 0 57300).t.tod ≤ 57300) :=
  ⟨by decide,
    c2_session_window_closed [("AAPL", fullDay)] [("AAPL", fullDay)] (by decide)
      ("AAPL", fullDay) (by decide) (mkBar 0 57300) (by decide)⟩

/-! ### Claim C3 -/

/-- C3 counterexample: on a raw day of 78 in-window rows whose first two
timestamps are inverted and whose 09:30 timestamp occurs twice, the
completeness check (which runs before duplicate removal) passes, and the
returned table is neither strictly increasing nor does its one calendar
date keep 78 rows: after duplicate removal only 77 remain. -/
theorem c3_counterexample :
    download_intraday [("AAPL", messyDay)] = Except.ok [("AAPL", messyDayOut)] ∧
    ¬ (messyDayOut.map Bar.t).Pairwise tsLt ∧
    mkBar 0 34200 ∈ messyDayOut ∧
    (messyDayOut.filter (fun b => b.t.date == 0)).length = 77 :=
  ⟨by decide, by decide, by decide, by decide⟩

/-- C3 (amended): every per-symbol table returned by download_intraday is
the cleaning of the matching raw series and satisfies: its timestamps are
unique; every timestamp is inside the session window; every row belongs to
a calendar date that had at least 78 bars at the grouping step (counted
before duplicate removal); and, provided the in-window raw bars of each
calendar date appear in non-decreasing timestamp order, the timestamps of
the table are strictly increasing.  (Unconditional strict monotonicity and
a post-deduplication 78-bar minimum are refuted by c3_counterexample.) -/
theorem c3_output_invariants :
    ∀ (raw res : List (String × List Bar)), download_intraday raw = Except.ok res →
      ∀ p ∈ res, ∃ q ∈ raw, p.1 = q.1 ∧ cleanSymbol q.2 = Except.ok p.2 ∧
        (p.2.map Bar.t).Nodup ∧
        (∀ b ∈ p.2, inSession b.t = true) ∧
        (∀ b ∈ p.2, 78 ≤ (dayRows (sessionFilter q.2) b.t.date).length) ∧
        ((∀ d : Int, ((dayRows (sessionFilter q.2) d).map Bar.t).Pairwise tsLe) →
          (p.2.map Bar.t).Pairwise tsLt) := by
  intro raw res hok p hp
  obtain ⟨q, hq, hfst, hclean⟩ := download_intraday_mem hok p hp
  exact ⟨q, hq, hfst, hclean, cleanSymbol_nodup hclean, cleanSymbol_inSession hclean,
    fun b hb => cleanSymbol_date_complete hclean hb,
    fun hday => cleanSymbol_sorted hclean hday⟩

/-- Witness for c3_output_invariants at a concrete input. -/
theorem c3_output_invariants_witness :
    download_intraday [("AAPL", fullDay)] = Except.ok [("AAPL", fullDay)] ∧
    (fullDay.map Bar.t).Nodup := by
  refine ⟨by decide, ?_⟩
  obtain ⟨q, hq, hfst, hclean, hnodup, -⟩ :=
    c3_output_invariants [("AAPL", fullDay)] [("AAPL", fullDay)] (by decide)
      ("AAPL", fullDay) (by decide)
  exact hnodup

/-! ### Claim C4 -/

/-- C4: after session-window filtering the rows are grouped by calendar
date and a date appears in the output exactly when its group counted at
least 78 rows at the grouping step; dropped dates are removed entirely. -/
theorem c4_retained_iff_78 :
    ∀ (rows out : List Bar), cleanSymbol rows = Except.ok out →
      ∀ d : Int,
        out.filter (fun b => b.t.date == d) ≠ [] ↔
          78 ≤ (dayRows (sessionFilter rows) d).length := by
  intro rows out hok d
  constructor
  · intro hne
    obtain ⟨b, hbmem⟩ := List.exists_mem_of_length_pos (List.length_pos.mpr hne)
    obtain ⟨hb, hbd⟩ := List.mem_filter.mp hbmem
    rw [beq_iff_eq] at hbd
    exact hbd ▸ cleanSymbol_date_complete hok hb
  · intro hlen
    have hday_ne : dayRows (sessionFilter rows) d ≠ [] := by
      intro hc
      rw [hc] at hlen
      simp at hlen
    have hd : d ∈ uniqueDates (sessionFilter rows) := by
      obtain ⟨b, hb⟩ := List.exists_mem_of_length_pos (List.length_pos.mpr hday_ne)
      exact mem_uniqueDates.mpr ⟨b, (mem_dayRows.mp hb).1, (mem_dayRows.mp hb).2⟩
    have hblk : dedupKeepFirst (dayRows (sessionFilter rows) d) [] ∈ cleanedBlocks rows :=
      mem_cleanedBlocks.mpr ⟨d, hd, hlen, rfl⟩
    obtain ⟨b, hb⟩ := List.exists_mem_of_length_pos
      (List.length_pos.mpr (dedupKeepFirst_ne_nil hday_ne))
    have hbd : b.t.date = d := date_eq_of_mem_dayRows (mem_of_mem_dedupKeepFirst hb)
    have hbout : b ∈ out := by
      rw [cleanSymbol_blocks hok]
      exact List.mem_flatten.mpr ⟨_, hblk, hb⟩
    exact List.ne_nil_of_mem (List.mem_filter.mpr ⟨hbout, by rw [beq_iff_eq]; exact hbd⟩)

/-- Witness for c4_retained_iff_78 at a concrete input. -/
theorem c4_retained_iff_78_witness :
    cleanSymbol fullDay = Except.ok fullDay ∧
    fullDay.filter (fun b => b.t.date == 0) ≠ [] ∧
    fullDay.filter (fun b => b.t.date == 5) = [] :=
  ⟨by decide,
    (c4_retained_iff_78 fullDay fullDay (by decide) 0).mpr (by decide),
    by decide⟩

/-! ### Claim C5 -/

/-- C5: the fetcher pops one response per request, merges each page into
the per-symbol accumulator in order, and keeps requesting exactly while
the body carries a (truthy) continuation token: for a script whose first
pages all carry tokens and whose following page does not, it issues one
request per page up to and including the first tokenless page and returns
the pages merged per symbol. -/
theorem c5_pagination :
    ∀ (limit : Int) (pre : List ApiResponse) (p : ApiResponse) (rest : List ApiResponse),
      limit ≤ 10000 →
      (∀ q ∈ pre, q.status ≠ 429 ∧ tokenPresent q.next_page_token = true) →
      p.status ≠ 429 → tokenPresent p.next_page_token = false →
      download_intraday_dict limit (pre ++ p :: rest) =
        (pre.length + 1, Except.ok (mergePages [] (pre ++ [p]))) := by
  intro limit pre p rest hlimit hpre hp429 hptok
  unfold download_intraday_dict
  rw [if_neg (not_lt.mpr hlimit), fetchLoop_pages pre p rest [] 0 hpre hp429 hptok]
  rw [wrapFetch]
  simp

/-- First page of the witness script: bars for two symbols and a
continuation token. -/
def pageOne : ApiResponse :=
  ⟨200, none, [("AAPL", [mkBar 0 34200, mkBar 0 34500]), ("TSLA", [mkBar 0 34200])],
    some "NEXTTOKEN"⟩

/-- Second page of the witness script: one more AAPL bar and no token. -/
def pageTwo : ApiResponse :=
  ⟨200, none, [("AAPL", [mkBar 0 34800])], none⟩

/-- Witness for c5_pagination: token on page 1, none on page 2, so exactly
2 requests and both pages merged per symbol. -/
theorem c5_pagination_witness :
    download_intraday_dict 10000 [pageOne, pageTwo] =
      (2, Except.ok [("AAPL", [mkBar 0 34200, mkBar 0 34500, mkBar 0 34800]),
        ("TSLA", [mkBar 0 34200])]) :=
  (c5_pagination 10000 [pageOne] pageTwo [] (by decide) (by decide) (by decide)
    (by decide)).trans (by decide)

/-! ### Claim C6 -/

/-- C6: a page limit above 10000 raises ValueError with zero requests
issued, before any network interaction; a limit of at most 10000 passes
the check and the outcome is that of the pagination loop. -/
theorem c6_limit_check :
    ∀ (limit : Int) (script : List ApiResponse),
      (10000 < limit →
        download_intraday_dict limit script = (0, Except.error FetchError.invalidArgument)) ∧
      (limit ≤ 10000 →
        download_intraday_dict limit script = wrapFetch (fetchLoop script [] 0)) := by
  intro limit script
  constructor
  · intro hy
    unfold download_intraday_dict
    rw [if_pos hy]
  · intro hy
    unfold download_intraday_dict
    rw [if_neg (not_lt.mpr hy)]

/-- Witness for c6_limit_check at concrete limits 10001 and 10000. -/
theorem c6_limit_check_witness :
    download_intraday_dict 10001 [pageTwo] = (0, Except.error FetchError.invalidArgument) ∧
    download_intraday_dict 10000 [pageTwo] =
      (1, Except.ok [("AAPL", [mkBar 0 34800])]) :=
  ⟨(c6_limit_check 10001 [pageTwo]).1 (by decide),
    ((c6_limit_check 10000 [pageTwo]).2 (by decide)).trans
      (by
        rw [show ([pageTwo] : List ApiResponse) = [] ++ pageTwo :: [] from rfl,
          fetchLoop_pages [] pageTwo [] [] 0 (by simp) (by decide) (by decide)]
        decide)⟩

/-! ### Claim C7 -/

/-- C7 counterexample: the claim quantifies over every raw series whose
complete-day group list is empty, which includes the empty series; there
the program never reaches the concatenation step, because pd.DataFrame([])
has no columns and the datetime-column access of line 137 raises KeyError
first.  So cleaning the empty series does not fail with the empty-input
concatenation error. -/
theorem c7_empty_series_key_error :
    completeDayGroups (sessionFilter ([] : List Bar)) = [] ∧
    cleanSymbol ([] : List Bar) = Except.error CleanError.keyErrorDatetime ∧
    cleanSymbol ([] : List Bar) ≠ Except.error CleanError.emptyConcat :=
  ⟨by decide, by decide, by decide⟩

/-- C7 (amended): when a nonempty raw series of a symbol yields no
complete-day group at all, pd.concat receives an empty list and the
cleaning step fails at the concatenation step with the empty-input error
instead of returning an empty table; the failure also aborts any
download_intraday call whose input contains that symbol.  (An empty raw
series fails earlier, at the datetime-column access of line 137, see the
counterexample above.) -/
theorem c7_empty_concat_error :
    ∀ (rows : List Bar), rows ≠ [] → completeDayGroups (sessionFilter rows) = [] →
      cleanSymbol rows = Except.error CleanError.emptyConcat ∧
      ∀ (pre post : List (String × List Bar)) (s : String)
        (res : List (String × List Bar)),
        download_intraday (pre ++ (s, rows) :: post) ≠ Except.ok res := by
  intro rows hne hgroups
  have hfail : cleanSymbol rows = Except.error CleanError.emptyConcat := by
    unfold cleanSymbol concatClean
    rw [if_neg (fun hc => hne (List.isEmpty_iff.mp hc)), hgroups]
    rfl
  exact ⟨hfail, download_intraday_not_ok hfail⟩

/-- Witness for c7_empty_concat_error: a nonempty series whose single-bar
day is incomplete, so no group survives and cleaning raises the
empty-input error. -/
theorem c7_empty_concat_error_witness :
    completeDayGroups (sessionFilter [mkBar 0 34200]) = [] ∧
    cleanSymbol [mkBar 0 34200] = Except.error CleanError.emptyConcat :=
  ⟨by decide, (c7_empty_concat_error [mkBar 0 34200] (by decide) (by decide)).1⟩

/-! ### Claim C8 -/

/-- C8: evidence of the code bug in the stacking condition.  The usage
string of the driver declares the optional ninth argument <STACK>, but
line 38 tests sys.argv[6], which by the unpacking of line 18 is the API
key.  So an invocation with ninth argument stack produces no combined
table, while an invocation whose API-key argument is the string stack
produces one regardless of the ninth argument.  The aggregator itself is
ordered concatenation of the per-symbol tables. -/
theorem c8_stack_flag_checks_wrong_arg :
    driverMain ["download_data.py", "AAPL,TSLA", "5Min", "2022-01-03", "2022-01-04",
        "1000", "AKIDEXAMPLE", "SECRETEXAMPLE", "stack"] = DriverOutcome.run false ∧
    driverMain ["download_data.py", "AAPL", "5Min", "2022-01-03", "2022-01-04",
        "1000", "stack", "SECRETEXAMPLE", "nostack"] = DriverOutcome.run true ∧
    stack_data [("AAPL", [mkBar 0 34200]), ("TSLA", [mkBar 0 34500])]
      = [mkBar 0 34200, mkBar 0 34500] :=
  ⟨by decide, by decide, by decide⟩

/-! ### Claim C9 -/

/-- C9 counterexample: the claim says every invocation whose first
positional argument is a help flag exits with status zero, but the
argument-count check runs first, so the plain help invocation
download_data.py -h prints usage and exits 1. -/
theorem c9_help_flag_exits_one :
    driverMain ["download_data.py", "-h"] = DriverOutcome.usageExit 1 ∧
    DriverOutcome.usageExit 1 ≠ DriverOutcome.usageExit 0 :=
  ⟨by decide, by decide⟩

/-- C9 (amended): an argument count outside 8..9 prints usage and exits
with status 1; a help flag in the first positional argument prints usage
and exits 0 only when the argument count is inside that valid range,
because the count check runs first. -/
theorem c9_usage_and_help :
    ∀ argv : List String,
      ((argv.length < 8 ∨ 9 < argv.length) → driverMain argv = DriverOutcome.usageExit 1) ∧
      (8 ≤ argv.length → argv.length ≤ 9 →
        (argv.getD 1 "" = "-h" ∨ argv.getD 1 "" = "--help") →
        driverMain argv = DriverOutcome.usageExit 0) := by
  intro argv
  constructor
  · intro hbad
    unfold driverMain
    rw [if_pos hbad]
  · intro h8 h9 hhelp
    unfold driverMain
    rw [if_neg (by omega : ¬(argv.length < 8 ∨ 9 < argv.length)), if_pos hhelp]

/-- Witness for c9_usage_and_help at concrete invocations. -/
theorem c9_usage_and_help_witness :
    driverMain ["download_data.py", "AAPL"] = DriverOutcome.usageExit 1 ∧
    driverMain ["download_data.py", "--help", "5Min", "2022-01-03", "2022-01-04",
      "1000", "AKIDEXAMPLE", "SECRETEXAMPLE"] = DriverOutcome.usageExit 0 :=
  ⟨(c9_usage_and_help ["download_data.py", "AAPL"]).1 (by decide),
    (c9_usage_and_help ["download_data.py", "--help", "5Min", "2022-01-03",
      "2022-01-04", "1000", "AKIDEXAMPLE", "SECRETEXAMPLE"]).2 (by decide) (by decide)
      (by decide)⟩

/-! ### Claim C10 -/

/-- C10: the cleaning step never sorts rows.  Whenever cleaning succeeds,
the output is exactly the concatenation, over the distinct in-window
calendar dates in ascending order, of each retained day group taken in raw
input order with later duplicate timestamps dropped; consequently the date
sequence of the output is non-decreasing for every input, and the rows of
each calendar date form a subsequence of the raw rows of that date.
Within-day chronological order is not restored: there is an input whose
cleaned output is not sorted by timestamp. -/
theorem c10_no_sorting :
    (∀ (rows out : List Bar), cleanSymbol rows = Except.ok out →
      out = (cleanedBlocks rows).flatten ∧
      (out.map (fun b => b.t.date)).Pairwise (· ≤ ·) ∧
      ∀ d : Int, List.Sublist (out.filter (fun b => b.t.date == d))
        (rows.filter (fun b => b.t.date == d))) ∧
    (∃ rows out : List Bar, cleanSymbol rows = Except.ok out ∧
      ¬ (out.map Bar.t).Pairwise tsLt) := by
  constructor
  · intro rows out hok
    exact ⟨cleanSymbol_blocks hok, cleanSymbol_dates_mono hok,
      fun d => cleanSymbol_day_order hok d⟩
  · exact ⟨messyDay, messyDayOut, by decide, by decide⟩

/-- Witness for c10_no_sorting at a concrete input. -/
theorem c10_no_sorting_witness :
    cleanSymbol fullDay = Except.ok fullDay ∧
    fullDay = (cleanedBlocks fullDay).flatten :=
  ⟨by decide, (c10_no_sorting.1 fullDay fullDay (by decide)).1⟩

end AlpacaRest
